import Mathlib

/-!
Verification of the slot-availability calculator of
`src/Bitrix24-Weekly-View/src/services/slotService.ts`.

The embedding models the calculator over integers and character lists:

* A time of day inside one queried date is a number of minutes counted from
  that date's local midnight (`Int`).  `Date` values built by `toDateTime`
  (`d.setHours(hh, mm, 0, 0)` on a copy of the queried date) compare exactly
  as their minute offsets compare, assuming a fixed UTC offset for the date.
* Strings are modelled by Lean `String`s; the JavaScript primitives the
  service uses on them (`split(':')`, `Number(...)`, template formatting with
  `padStart(2, '0')`, the default lexicographic `Array.prototype.sort()`)
  are embedded as executable functions on the underlying character lists.
  `Number(...)` is modelled on the decimal-integer fragment actually produced
  by the service's own formatter (an optional leading `-` followed by ASCII
  digits, with the empty string mapping to `0`); other JavaScript numeric
  syntaxes (fractions, exponents, hex, `Infinity`) are modelled as `NaN`,
  i.e. `none`.
* A booking's `dateFrom`/`dateTo` strings are consumed by the service only
  through `new Date(...)` followed by a `Number.isNaN` filter; the embedding
  carries the outcome of that parse directly as `Option Int` (minutes from
  the queried date's midnight, `none` when the string does not parse to a
  valid date).
* The `while` loop of `generateSlots` (and of `generateDefaultSlots`) adds
  `slotDuration` to a minute cursor until `currentMinutes + slotDuration`
  exceeds the end bound, so for a positive duration it performs exactly
  `⌊(endMinutes - startMinutes) / slotDuration⌋` iterations (never negative);
  the embedding enumerates those iterations with `List.range`.  For a
  non-positive duration the source loop either performs zero iterations or
  never terminates; the embedding returns the empty list in both cases.
* `getAvailableSlots` awaits two fetches inside a `try` block; the embedding
  abstracts the pair of awaited results as an `Except` parameter, `.error`
  standing for any error thrown while retrieving them.
-/

namespace SlotService

/-! ### JavaScript string primitives -/

/-- Decimal digit characters of a natural number, most significant first,
as produced by JavaScript `String(n)` for a non-negative integer.  The
definition is fuel-indexed so that it is structural (and hence reducible by
the kernel); `n + 1` units of fuel always suffice. -/
def natDigitsAux : Nat → Nat → List Char
  | 0, _ => []
  | fuel + 1, n =>
    if n < 10 then [Nat.digitChar n]
    else natDigitsAux fuel (n / 10) ++ [Nat.digitChar (n % 10)]

/-- Digit characters of `n`, as JavaScript `String(n)` produces for `n ≥ 0`. -/
def natDigits (n : Nat) : List Char :=
  natDigitsAux (n + 1) n

/-- JavaScript `String(n)` for an integer `n`, as a character list. -/
def jsIntChars (n : Int) : List Char :=
  if n < 0 then '-' :: natDigits n.natAbs else natDigits n.toNat

/-- JavaScript `s.padStart(2, '0')`. -/
def padStart2 (l : List Char) : List Char :=
  List.replicate (2 - l.length) '0' ++ l

/-- `formatTime` of the service: `Math.floor(totalMinutes / 60)` and
`totalMinutes % 60` (JavaScript `%` keeps the dividend's sign, i.e. `tmod`),
each rendered with `String(...).padStart(2, '0')` and joined by `':'`. -/
def formatTime (totalMinutes : Int) : String :=
  ⟨padStart2 (jsIntChars (Int.fdiv totalMinutes 60)) ++
    ':' :: padStart2 (jsIntChars (Int.tmod totalMinutes 60))⟩

/-- JavaScript `s.split(':')` on the character list of `s`: splitting the
empty string yields `[""]`, and every separator occurrence opens a new
(possibly empty) component. -/
def splitOnColon : List Char → List (List Char)
  | [] => [[]]
  | c :: rest =>
    if c = ':' then [] :: splitOnColon rest
    else
      match splitOnColon rest with
      | [] => [[c]]
      | r :: rs => (c :: r) :: rs

/-- ASCII digit test, the character class accepted by `Number(...)` in the
decimal-integer fragment modelled here. -/
def isAsciiDigit (c : Char) : Bool :=
  '0' ≤ c && c ≤ '9'

/-- Numeric value of a list of ASCII digit characters. -/
def digitsToNat (l : List Char) : Nat :=
  l.foldl (fun acc c => acc * 10 + (c.toNat - '0'.toNat)) 0

/-- JavaScript `Number(s)` on the decimal-integer fragment (see the header
comment): `""` is `0`, a digit string is its value, `-` followed by a
non-empty digit string is the negated value, anything else is `NaN`
(`none`). -/
def jsNumberChars : List Char → Option Int
  | [] => some 0
  | l =>
    if l.all isAsciiDigit then some (digitsToNat l)
    else
      match l with
      | '-' :: rest =>
        if !rest.isEmpty && rest.all isAsciiDigit then
          some (-(digitsToNat rest : Int))
        else none
      | _ => none

/-- The minute value the service extracts from a `HH:MM` string: both
`toDateTime` and the `[startHour, startMinute] = s.split(':').map(Number)`
destructurings compute `(hh || 0) * 60 + (mm || 0)` — a missing component
(`undefined`) and a `NaN` component both collapse to `0`. -/
def parseTime (s : String) : Int :=
  let parts := splitOnColon s.data
  let hh := (parts[0]?.bind jsNumberChars).getD 0
  let mm := (parts[1]?.bind jsNumberChars).getD 0
  hh * 60 + mm

/-- JavaScript `<` on strings: lexicographic comparison by code unit (all
characters appearing here are in the Basic Multilingual Plane, where code
units and code points agree). -/
def lexLt : List Char → List Char → Bool
  | [], [] => false
  | [], _ :: _ => true
  | _ :: _, [] => false
  | a :: as, b :: bs =>
    if a < b then true else if b < a then false else lexLt as bs

/-- The ascending order realised by the comparator-less
`Array.prototype.sort()` on an array of strings. -/
def jsLe (a b : String) : Prop :=
  lexLt b.data a.data = false

instance : DecidableRel jsLe := fun _ _ =>
  inferInstanceAs (Decidable (_ = false))

/-- `Array.prototype.sort()` on an array of strings.  The sort order is a
total order with antisymmetry (proved below), so the sorted result is the
unique `jsLe`-sorted permutation; any correct sorting algorithm yields it. -/
def jsSortStrings (l : List String) : List String :=
  List.insertionSort jsLe l

/-! ### Data model (`slotService.ts` interfaces) -/

/-- One entry of `ResourceSlotConfig.blockedSlots`; the source field `end`
is named `stop` here because `end` is a Lean keyword. -/
structure BlockedSlot where
  start : String
  stop : String
deriving Repr, DecidableEq

/-- `ResourceSlotConfig` of the source. -/
structure ResourceSlotConfig where
  resourceId : Int
  workStart : String
  workEnd : String
  slotDuration : Int
  blockedSlots : List BlockedSlot
deriving Repr, DecidableEq

/-- `BookingItem` of the source.  `dateFrom`/`dateTo` carry the outcome of
`new Date(string)` as minutes from the queried date's midnight, `none` when
the string fails to parse as a valid date (see the header comment). -/
structure BookingItem where
  id : Int
  resourceId : Int
  dateFrom : Option Int
  dateTo : Option Int
deriving Repr, DecidableEq

/-- An element of the `bookingRanges` array built inside `generateSlots`
(a booking whose two dates parsed successfully); the source field `end` is
named `stop` here. -/
structure BookingRange where
  resourceId : Int
  start : Int
  stop : Int
deriving Repr, DecidableEq

/-- `TimeSlot` of the source. -/
structure TimeSlot where
  startTime : String
  endTime : String
  available : Bool
  resourceIds : List Int
deriving Repr, DecidableEq

def DEFAULT_SLOT_DURATION : Int := 60
def DEFAULT_START_TIME : String := "08:00"
def DEFAULT_END_TIME : String := "20:00"

/-! ### `generateSlots` -/

/-- The `configByResource` map of `generateSlots`: `Map.set` is called once
per config in list order, so a later config with the same `resourceId`
overwrites an earlier one — the lookup returns the last match. -/
def configByResource (configs : List ResourceSlotConfig) (resourceId : Int) :
    Option ResourceSlotConfig :=
  configs.foldl (fun acc cfg => if cfg.resourceId == resourceId then some cfg else acc) none

/-- The half-open interval overlap test of `generateSlots`:
`aStart < bEnd && aEnd > bStart`. -/
def overlaps (aStart aEnd bStart bEnd : Int) : Bool :=
  decide (aStart < bEnd) && decide (aEnd > bStart)

/-- The `bookingRanges` array of `generateSlots`: each booking's dates are
parsed with `new Date(...)` and entries with an invalid (`NaN`) start or end
are filtered out. -/
def bookingRangesOf (bookings : List BookingItem) : List BookingRange :=
  bookings.filterMap fun b =>
    match b.dateFrom, b.dateTo with
    | some s, some e => some ⟨b.resourceId, s, e⟩
    | _, _ => none

/-- Effective work-window start of a resource inside the slot loop:
`cfg ? toDateTime(cfg.workStart) : toDateTime(DEFAULT_START_TIME)`. -/
def effWorkStart (configs : List ResourceSlotConfig) (resourceId : Int) : Int :=
  parseTime (((configByResource configs resourceId).map (·.workStart)).getD DEFAULT_START_TIME)

/-- Effective work-window end of a resource inside the slot loop. -/
def effWorkEnd (configs : List ResourceSlotConfig) (resourceId : Int) : Int :=
  parseTime (((configByResource configs resourceId).map (·.workEnd)).getD DEFAULT_END_TIME)

/-- Effective blocked intervals of a resource inside the slot loop:
`cfg?.blockedSlots ?? []`. -/
def effBlocked (configs : List ResourceSlotConfig) (resourceId : Int) : List BlockedSlot :=
  ((configByResource configs resourceId).map (·.blockedSlots)).getD []

/-- The body of the `for (const resourceId of resourceIds)` loop of
`generateSlots`: a resource is pushed onto `availableResourceIds` exactly
when none of the three `continue` guards fires (work window containment,
blocked-interval overlap, booking overlap). -/
def resourceFree (configs : List ResourceSlotConfig) (bookingRanges : List BookingRange)
    (slotStart slotEnd : Int) (resourceId : Int) : Bool :=
  decide (effWorkStart configs resourceId ≤ slotStart) &&
    decide (slotEnd ≤ effWorkEnd configs resourceId) &&
    !(effBlocked configs resourceId).any (fun b =>
      overlaps slotStart slotEnd (parseTime b.start) (parseTime b.stop)) &&
    !bookingRanges.any (fun b =>
      b.resourceId == resourceId && overlaps slotStart slotEnd b.start b.stop)

/-- One iteration of the `while` loop of `generateSlots`: format the slot
bounds, re-parse them (`toDateTime(startTime)`), filter the requested
resources, and mark the slot available iff some resource survived. -/
def mkSlot (resourceIds : List Int) (configs : List ResourceSlotConfig)
    (bookingRanges : List BookingRange) (currentMinutes slotDuration : Int) : TimeSlot :=
  let startTime := formatTime currentMinutes
  let endTime := formatTime (currentMinutes + slotDuration)
  let slotStart := parseTime startTime
  let slotEnd := parseTime endTime
  let availableResourceIds :=
    resourceIds.filter (resourceFree configs bookingRanges slotStart slotEnd)
  { startTime := startTime
    endTime := endTime
    available := decide (availableResourceIds.length > 0)
    resourceIds := availableResourceIds }

/-- Number of iterations of `while (currentMinutes + slotDuration <= endMinutes)`
with step `slotDuration`: `⌊(endMinutes - startMinutes) / slotDuration⌋`
clamped to `0`, for a positive duration (see the header comment for the
non-positive case). -/
def slotCount (startMinutes endMinutes slotDuration : Int) : Nat :=
  if slotDuration ≤ 0 then 0 else ((endMinutes - startMinutes) / slotDuration).toNat

/-- The sorted-ascending global start bound of `generateSlots`:
`starts.length ? starts.sort()[0] : DEFAULT_START_TIME`, parsed to minutes
(`(startHour || 0) * 60 + (startMinute || 0)`).  `filter(Boolean)` drops
exactly the empty strings. -/
def gsStart (configs : List ResourceSlotConfig) : Int :=
  parseTime ((jsSortStrings ((configs.map (·.workStart)).filter (fun s => s != ""))).headD
    DEFAULT_START_TIME)

/-- The global end bound of `generateSlots`:
`ends.length ? ends.sort().slice(-1)[0] : DEFAULT_END_TIME`, parsed. -/
def gsEnd (configs : List ResourceSlotConfig) : Int :=
  parseTime ((jsSortStrings ((configs.map (·.workEnd)).filter (fun s => s != ""))).getLastD
    DEFAULT_END_TIME)

/-- `SlotService.generateSlots`. -/
def generateSlots (resourceIds : List Int) (configs : List ResourceSlotConfig)
    (bookings : List BookingItem) (slotDuration : Int) : List TimeSlot :=
  (List.range (slotCount (gsStart configs) (gsEnd configs) slotDuration)).map fun k : Nat =>
    mkSlot resourceIds configs (bookingRangesOf bookings)
      (gsStart configs + (k : Int) * slotDuration) slotDuration

/-- `SlotService.generateDefaultSlots`: tiles the fixed default window,
marking a slot blocked iff some `blockedSlots` entry's `start` string equals
the slot's formatted start. -/
def generateDefaultSlots (slotDuration : Int) (resourceIds : List Int)
    (blockedSlots : List BlockedSlot) : List TimeSlot :=
  (List.range
      (slotCount (parseTime DEFAULT_START_TIME) (parseTime DEFAULT_END_TIME) slotDuration)).map
    fun k : Nat =>
      let currentMinutes := parseTime DEFAULT_START_TIME + (k : Int) * slotDuration
      let start := formatTime currentMinutes
      let stop := formatTime (currentMinutes + slotDuration)
      let isBlocked := blockedSlots.any (fun blocked => blocked.start == start)
      { startTime := start
        endTime := stop
        available := !isBlocked
        resourceIds := if isBlocked then [] else resourceIds }

/-- `SlotService.getAvailableSlots`.  `fetched` abstracts the awaited pair
`(getResourceConfigs, getBookingsForDate)`; `.error` stands for any error
thrown while retrieving either (the `catch` branch). -/
def getAvailableSlots (resourceIds : List Int)
    (fetched : Except Unit (List ResourceSlotConfig × List BookingItem))
    (slotDuration : Int) : List TimeSlot :=
  if resourceIds.length = 0 then generateDefaultSlots slotDuration [] []
  else
    match fetched with
    | .ok (configs, bookings) => generateSlots resourceIds configs bookings slotDuration
    | .error _ => generateDefaultSlots slotDuration resourceIds []

/-! ### Claim-facing auxiliary definitions -/

/-- Two-digit decimal rendering of `n < 100`. -/
def pad2 (n : Nat) : List Char :=
  [Nat.digitChar (n / 10), Nat.digitChar (n % 10)]

/-- Characters of the canonical `HH:MM` rendering of a time of day. -/
def timeChars (h m : Nat) : List Char :=
  pad2 h ++ ':' :: pad2 m

/-- Canonical `HH:MM` rendering of a time of day. -/
def timeString (h m : Nat) : String :=
  ⟨timeChars h m⟩

/-- A string is a well-formed time of day: the canonical `HH:MM` rendering
of some hour `< 24` and minute `< 60` (the shape of every `WorkingWindow`
bound in the specification's data model). -/
def ValidTime (s : String) : Prop :=
  ∃ h m, h < 24 ∧ m < 60 ∧ s = timeString h m

/-- Minimum of the parsed `workStart` bounds over a configuration list
(the specification's union-window start). -/
def unionStartOfConfigs (configs : List ResourceSlotConfig) : Option Int :=
  (configs.map fun c => parseTime c.workStart).min?

/-- Maximum of the parsed `workEnd` bounds over a configuration list
(the specification's union-window end). -/
def unionEndOfConfigs (configs : List ResourceSlotConfig) : Option Int :=
  (configs.map fun c => parseTime c.workEnd).max?

/-! ### Lemmas: digits, padding, parsing -/

theorem digitChar_lt_iff : ∀ a < 10, ∀ b < 10,
    (Nat.digitChar a < Nat.digitChar b ↔ a < b) := by decide

theorem digitChar_inj : ∀ a < 10, ∀ b < 10, Nat.digitChar a = Nat.digitChar b → a = b := by
  decide

theorem pad2_no_colon : ∀ n < 100, ∀ c ∈ pad2 n, c ≠ ':' := by decide

theorem jsNumberChars_pad2 : ∀ n < 100, jsNumberChars (pad2 n) = some (n : Int) := by decide

theorem padStart2_jsIntChars : ∀ n : Nat, n < 100 → padStart2 (jsIntChars (n : Int)) = pad2 n := by
  decide

theorem splitOnColon_no_colon {l : List Char} (h : ∀ c ∈ l, c ≠ ':') :
    splitOnColon l = [l] := by
  induction l with
  | nil => rfl
  | cons c rest ih =>
    have hc : c ≠ ':' := h c (List.mem_cons_self c rest)
    simp only [splitOnColon, if_neg hc]
    rw [ih fun x hx => h x (List.mem_cons_of_mem c hx)]

theorem splitOnColon_append {a : List Char} (b : List Char) (h : ∀ c ∈ a, c ≠ ':') :
    splitOnColon (a ++ ':' :: b) = a :: splitOnColon b := by
  induction a with
  | nil => simp [splitOnColon]
  | cons c rest ih =>
    have hc : c ≠ ':' := h c (List.mem_cons_self c rest)
    simp only [List.cons_append, splitOnColon, if_neg hc, List.append_eq]
    rw [ih fun x hx => h x (List.mem_cons_of_mem c hx)]

theorem splitOnColon_timeChars {h m : Nat} (hh : h < 100) (hm : m < 100) :
    splitOnColon (timeChars h m) = [pad2 h, pad2 m] := by
  rw [timeChars, splitOnColon_append _ (pad2_no_colon h hh),
    splitOnColon_no_colon (pad2_no_colon m hm)]

theorem parseTime_timeString {h m : Nat} (hh : h < 100) (hm : m < 60) :
    parseTime (timeString h m) = 60 * h + m := by
  have hsplit := splitOnColon_timeChars hh (lt_trans hm (by norm_num))
  simp only [parseTime, timeString, hsplit]
  rw [show ([pad2 h, pad2 m][0]? = some (pad2 h)) from rfl,
    show ([pad2 h, pad2 m][1]? = some (pad2 m)) from rfl]
  simp only [Option.some_bind, jsNumberChars_pad2 h hh, jsNumberChars_pad2 m (by omega),
    Option.getD_some]
  omega

theorem parseTime_formatTime {m : Int} (h0 : 0 ≤ m) (h6 : m < 6000) :
    parseTime (formatTime m) = m := by
  have hfd : Int.fdiv m 60 = m / 60 := Int.fdiv_eq_ediv m (by norm_num)
  have htm : Int.tmod m 60 = m % 60 := Int.tmod_eq_emod h0 (by norm_num)
  have hq0 : 0 ≤ m / 60 := Int.ediv_nonneg h0 (by norm_num)
  have hr0 : 0 ≤ m % 60 := Int.emod_nonneg m (by norm_num)
  have hq : (m / 60).toNat < 100 := by omega
  have hr : (m % 60).toNat < 60 := by omega
  have e1 : (m / 60) = (((m / 60).toNat : Nat) : Int) := (Int.toNat_of_nonneg hq0).symm
  have e2 : (m % 60) = (((m % 60).toNat : Nat) : Int) := (Int.toNat_of_nonneg hr0).symm
  have : formatTime m = timeString (m / 60).toNat (m % 60).toNat := by
    rw [formatTime, timeString, timeChars, hfd, htm]
    conv_lhs => rw [e1, e2]
    rw [padStart2_jsIntChars _ hq, padStart2_jsIntChars _ (by omega)]
  rw [this, parseTime_timeString hq hr]
  omega

/-! ### Lemmas: the JavaScript string order and `sort()` -/

theorem lexLt_irrefl (l : List Char) : lexLt l l = false := by
  induction l with
  | nil => rfl
  | cons c rest ih => simp [lexLt, lt_irrefl, ih]

theorem lexLt_asymm : ∀ {a b : List Char}, lexLt a b = true → lexLt b a = false := by
  intro a
  induction a with
  | nil =>
    intro b h
    cases b <;> simp_all [lexLt]
  | cons c rest ih =>
    intro b h
    cases b with
    | nil => simp [lexLt] at h
    | cons d bs =>
      simp only [lexLt] at h ⊢
      by_cases h1 : c < d
      · simp [h1, asymm h1]
      · by_cases h2 : d < c
        · simp [h1, h2] at h
        · simp only [if_neg h1, if_neg h2] at h ⊢
          exact ih h

theorem lexLt_trans : ∀ {a b c : List Char},
    lexLt a b = true → lexLt b c = true → lexLt a c = true := by
  intro a
  induction a with
  | nil =>
    intro b c hab hbc
    cases b with
    | nil => simp [lexLt] at hab
    | cons d bs =>
      cases c with
      | nil => simp [lexLt] at hbc
      | cons e cs => simp [lexLt]
  | cons x xs ih =>
    intro b c hab hbc
    cases b with
    | nil => simp [lexLt] at hab
    | cons y ys =>
      cases c with
      | nil => simp [lexLt] at hbc
      | cons z zs =>
        simp only [lexLt] at hab hbc ⊢
        by_cases hxy : x < y
        · by_cases hyz : y < z
          · simp [lt_trans hxy hyz]
          · by_cases hzy : z < y
            · simp only [if_pos hxy] at hab
              simp [hyz, hzy] at hbc
            · have : y = z := le_antisymm (not_lt.mp hzy) (not_lt.mp hyz)
              subst this
              simp [hxy]
        · by_cases hyx : y < x
          · simp [hxy, hyx] at hab
          · have : x = y := le_antisymm (not_lt.mp hyx) (not_lt.mp hxy)
            subst this
            simp only [if_neg hxy, lt_irrefl, if_neg (lt_irrefl x)] at hab
            by_cases hxz : x < z
            · simp [hxz]
            · by_cases hzx : z < x
              · simp [hxz, hzx] at hbc
              · simp only [if_neg hxz, if_neg hzx] at hbc ⊢
                exact ih hab hbc

theorem eq_of_lexLt_false : ∀ {a b : List Char},
    lexLt a b = false → lexLt b a = false → a = b := by
  intro a
  induction a with
  | nil =>
    intro b h1 _
    cases b with
    | nil => rfl
    | cons d bs => simp [lexLt] at h1
  | cons c rest ih =>
    intro b h1 h2
    cases b with
    | nil => simp [lexLt] at h2
    | cons d bs =>
      simp only [lexLt] at h1 h2
      by_cases hcd : c < d
      · simp [hcd] at h1
      · by_cases hdc : d < c
        · simp [hdc, hcd] at h2
        · have : c = d := le_antisymm (not_lt.mp hdc) (not_lt.mp hcd)
          subst this
          simp only [if_neg hcd, lt_irrefl, if_neg (lt_irrefl c)] at h1 h2
          rw [ih h1 h2]

theorem lexLt_trichotomy (a b : List Char) :
    lexLt a b = true ∨ lexLt b a = true ∨ a = b := by
  cases hab : lexLt a b with
  | true => exact Or.inl rfl
  | false =>
    cases hba : lexLt b a with
    | true => exact Or.inr (Or.inl rfl)
    | false => exact Or.inr (Or.inr (eq_of_lexLt_false hab hba))

theorem jsLe_refl (s : String) : jsLe s s :=
  lexLt_irrefl s.data

instance : IsTotal String jsLe :=
  ⟨fun a b => by
    unfold jsLe
    cases h : lexLt a.data b.data with
    | false => exact Or.inr rfl
    | true => exact Or.inl (lexLt_asymm h)⟩

instance : IsTrans String jsLe :=
  ⟨fun a b c hab hbc => by
    unfold jsLe at hab hbc ⊢
    rcases lexLt_trichotomy a.data b.data with h1 | h1 | h1
    · rcases lexLt_trichotomy b.data c.data with h2 | h2 | h2
      · exact lexLt_asymm (lexLt_trans h1 h2)
      · rw [h2] at hbc
        exact Bool.noConfusion hbc
      · rw [← h2]
        exact lexLt_asymm h1
    · rw [h1] at hab
      exact Bool.noConfusion hab
    · rw [h1]
      exact hbc⟩

theorem jsSort_headD_min (L : List String) (hL : L ≠ []) (dflt : String) :
    (jsSortStrings L).headD dflt ∈ L ∧ ∀ x ∈ L, jsLe ((jsSortStrings L).headD dflt) x := by
  have hperm := List.perm_insertionSort jsLe L
  have hsorted := List.sorted_insertionSort jsLe L
  rw [jsSortStrings]
  cases hsort : List.insertionSort jsLe L with
  | nil =>
    rw [hsort] at hperm
    exact absurd (hperm.symm.eq_nil) hL
  | cons a t =>
    rw [hsort] at hperm hsorted
    simp only [List.headD_cons]
    refine ⟨hperm.mem_iff.mp (List.mem_cons_self a t), fun x hx => ?_⟩
    rcases List.mem_cons.mp (hperm.mem_iff.mpr hx) with rfl | hxt
    · exact jsLe_refl x
    · exact List.rel_of_sorted_cons hsorted x hxt

theorem sorted_jsLe_getLastD :
    ∀ (l : List String) (d : String), l.Sorted jsLe → ∀ x ∈ l, jsLe x (l.getLastD d) := by
  intro l
  induction l with
  | nil => simp
  | cons a t ih =>
    intro d hs x hx
    cases t with
    | nil =>
      rw [List.mem_singleton] at hx
      subst hx
      exact jsLe_refl x
    | cons b t2 =>
      rw [List.getLastD_cons]
      rcases List.mem_cons.mp hx with rfl | hx2
      · rcases List.mem_cons.mp (List.getLastD_mem_cons (b :: t2) x) with he | hm
        · rw [he]
          exact jsLe_refl x
        · exact List.rel_of_sorted_cons hs _ hm
      · exact ih a hs.of_cons x hx2

theorem jsSort_getLastD_max (L : List String) (hL : L ≠ []) (dflt : String) :
    (jsSortStrings L).getLastD dflt ∈ L ∧ ∀ x ∈ L, jsLe x ((jsSortStrings L).getLastD dflt) := by
  have hperm := List.perm_insertionSort jsLe L
  have hsorted := List.sorted_insertionSort jsLe L
  rw [jsSortStrings]
  cases hsort : List.insertionSort jsLe L with
  | nil =>
    rw [hsort] at hperm
    exact absurd (hperm.symm.eq_nil) hL
  | cons a t =>
    rw [hsort] at hperm hsorted
    constructor
    · rw [List.getLastD_cons]
      exact hperm.mem_iff.mp (List.getLastD_mem_cons t a)
    · intro x hx
      exact sorted_jsLe_getLastD (a :: t) dflt hsorted x (hperm.mem_iff.mpr hx)

/-! ### Lemmas: the string order agrees with the numeric order on `HH:MM` -/

theorem lexLt_pad2_append {a b : Nat} (ha : a < 100) (hb : b < 100) (r1 r2 : List Char) :
    lexLt (pad2 a ++ r1) (pad2 b ++ r2) =
      if a < b then true else if b < a then false else lexLt r1 r2 := by
  have ha1 : a / 10 < 10 := by omega
  have ha2 : a % 10 < 10 := by omega
  have hb1 : b / 10 < 10 := by omega
  have hb2 : b % 10 < 10 := by omega
  simp only [pad2, List.cons_append, lexLt]
  by_cases h1 : Nat.digitChar (a / 10) < Nat.digitChar (b / 10)
  · have hq : a / 10 < b / 10 := (digitChar_lt_iff _ ha1 _ hb1).mp h1
    have hab : a < b := by omega
    simp [h1, hab]
  · by_cases h2 : Nat.digitChar (b / 10) < Nat.digitChar (a / 10)
    · have hq : b / 10 < a / 10 := (digitChar_lt_iff _ hb1 _ ha1).mp h2
      have hab : b < a := by omega
      simp [h1, h2, hab, Nat.lt_asymm hab]
    · have hde : a / 10 = b / 10 := by
        rcases Nat.lt_trichotomy (a / 10) (b / 10) with h | h | h
        · exact absurd ((digitChar_lt_iff _ ha1 _ hb1).mpr h) h1
        · exact h
        · exact absurd ((digitChar_lt_iff _ hb1 _ ha1).mpr h) h2
      simp only [if_neg h1, if_neg h2]
      by_cases h3 : Nat.digitChar (a % 10) < Nat.digitChar (b % 10)
      · have hr : a % 10 < b % 10 := (digitChar_lt_iff _ ha2 _ hb2).mp h3
        have hab : a < b := by omega
        simp [h3, hab]
      · by_cases h4 : Nat.digitChar (b % 10) < Nat.digitChar (a % 10)
        · have hr : b % 10 < a % 10 := (digitChar_lt_iff _ hb2 _ ha2).mp h4
          have hab : b < a := by omega
          simp [h3, h4, hab, Nat.lt_asymm hab]
        · have hre : a % 10 = b % 10 := by
            rcases Nat.lt_trichotomy (a % 10) (b % 10) with h | h | h
            · exact absurd ((digitChar_lt_iff _ ha2 _ hb2).mpr h) h3
            · exact h
            · exact absurd ((digitChar_lt_iff _ hb2 _ ha2).mpr h) h4
          have heq : a = b := by omega
          subst heq
          simp [h3, h4]

theorem lexLt_timeChars {h1 m1 h2 m2 : Nat} (hh1 : h1 < 100) (hm1 : m1 < 60)
    (hh2 : h2 < 100) (hm2 : m2 < 60) :
    lexLt (timeChars h1 m1) (timeChars h2 m2) = true ↔ 60 * h1 + m1 < 60 * h2 + m2 := by
  rw [timeChars, timeChars, lexLt_pad2_append hh1 hh2]
  by_cases h : h1 < h2
  · simp only [if_pos h]
    constructor
    · intro
      omega
    · intro
      trivial
  · by_cases hgt : h2 < h1
    · simp only [if_neg h, if_pos hgt]
      constructor
      · intro hfalse
        exact Bool.noConfusion hfalse
      · intro
        omega
    · have heq : h1 = h2 := by omega
      subst heq
      simp only [if_neg h, if_neg hgt]
      have hcolon : lexLt (':' :: pad2 m1) (':' :: pad2 m2) = lexLt (pad2 m1) (pad2 m2) := by
        simp [lexLt]
      have hpad : lexLt (pad2 m1) (pad2 m2) =
          if m1 < m2 then true else if m2 < m1 then false else lexLt [] [] := by
        have := lexLt_pad2_append (lt_trans hm1 (by norm_num))
          (lt_trans hm2 (by norm_num)) ([] : List Char) []
        simpa using this
      rw [hcolon, hpad]
      by_cases hm : m1 < m2
      · simp only [if_pos hm]
        constructor
        · intro
          omega
        · intro
          trivial
      · by_cases hm' : m2 < m1
        · simp only [if_neg hm, if_pos hm']
          constructor
          · intro hfalse
            exact Bool.noConfusion hfalse
          · intro
            omega
        · simp only [if_neg hm, if_neg hm', lexLt]
          constructor
          · intro hfalse
            exact Bool.noConfusion hfalse
          · intro
            omega

/-! ### Lemmas: valid `HH:MM` strings -/

theorem validTime_ne_empty {s : String} (h : ValidTime s) : s ≠ "" := by
  obtain ⟨h', m, _, _, rfl⟩ := h
  intro heq
  have := congrArg String.data heq
  simp [timeString, timeChars, pad2] at this

theorem parseTime_valid {s : String} (h : ValidTime s) :
    ∃ hh mm : Nat, hh < 24 ∧ mm < 60 ∧ parseTime s = 60 * hh + mm := by
  obtain ⟨hh, mm, hlt, mlt, rfl⟩ := h
  exact ⟨hh, mm, hlt, mlt, parseTime_timeString (by omega) mlt⟩

theorem parseTime_valid_bounds {s : String} (h : ValidTime s) :
    0 ≤ parseTime s ∧ parseTime s < 1440 := by
  obtain ⟨hh, mm, hlt, mlt, heq⟩ := parseTime_valid h
  rw [heq]
  omega

theorem jsLe_parseTime_mono {s t : String} (hs : ValidTime s) (ht : ValidTime t)
    (h : jsLe s t) : parseTime s ≤ parseTime t := by
  obtain ⟨a, b, ha, hb, rfl⟩ := hs
  obtain ⟨c, d, hc, hd, rfl⟩ := ht
  rw [parseTime_timeString (by omega) hb, parseTime_timeString (by omega) hd]
  unfold jsLe at h
  by_contra hlt
  push_neg at hlt
  have hnum : 60 * c + d < 60 * a + b := by omega
  have htrue : lexLt (timeChars c d) (timeChars a b) = true :=
    (lexLt_timeChars (by omega) hd (by omega) hb).mpr hnum
  rw [show (timeString c d).data = timeChars c d from rfl,
    show (timeString a b).data = timeChars a b from rfl] at h
  rw [htrue] at h
  exact Bool.noConfusion h

/-! ### Lemmas: slot enumeration -/

theorem lt_slotCount_iff {s e d : Int} (hd : 0 < d) (k : Nat) :
    k < slotCount s e d ↔ s + k * d + d ≤ e := by
  rw [slotCount, if_neg (by omega), Int.lt_toNat,
    show ((k : Int) < (e - s) / d ↔ (k : Int) + 1 ≤ (e - s) / d) from by omega,
    Int.le_ediv_iff_mul_le hd, add_one_mul]
  constructor
  · intro h
    linarith
  · intro h
    linarith

theorem generateSlots_length (rids : List Int) (configs : List ResourceSlotConfig)
    (bookings : List BookingItem) (d : Int) :
    (generateSlots rids configs bookings d).length =
      slotCount (gsStart configs) (gsEnd configs) d := by
  simp [generateSlots]

theorem generateSlots_getElem (rids : List Int) (configs : List ResourceSlotConfig)
    (bookings : List BookingItem) (d : Int) (k : Nat)
    (hk : k < (generateSlots rids configs bookings d).length) :
    (generateSlots rids configs bookings d).get ⟨k, hk⟩ =
      mkSlot rids configs (bookingRangesOf bookings) (gsStart configs + k * d) d := by
  simp [generateSlots]

theorem mem_generateSlots {rids : List Int} {configs : List ResourceSlotConfig}
    {bookings : List BookingItem} {d : Int} {slot : TimeSlot} :
    slot ∈ generateSlots rids configs bookings d ↔
      ∃ k : Nat, k < slotCount (gsStart configs) (gsEnd configs) d ∧
        slot = mkSlot rids configs (bookingRangesOf bookings) (gsStart configs + k * d) d := by
  simp only [generateSlots, List.mem_map, List.mem_range]
  constructor
  · rintro ⟨k, hk, rfl⟩
    exact ⟨k, hk, rfl⟩
  · rintro ⟨k, hk, rfl⟩
    exact ⟨k, hk, rfl⟩

theorem mkSlot_startTime (rids : List Int) (configs : List ResourceSlotConfig)
    (br : List BookingRange) (cm d : Int) :
    (mkSlot rids configs br cm d).startTime = formatTime cm := rfl

theorem mkSlot_endTime (rids : List Int) (configs : List ResourceSlotConfig)
    (br : List BookingRange) (cm d : Int) :
    (mkSlot rids configs br cm d).endTime = formatTime (cm + d) := rfl

theorem mkSlot_resourceIds (rids : List Int) (configs : List ResourceSlotConfig)
    (br : List BookingRange) (cm d : Int) :
    (mkSlot rids configs br cm d).resourceIds =
      rids.filter
        (resourceFree configs br (parseTime (formatTime cm)) (parseTime (formatTime (cm + d)))) :=
  rfl

theorem mkSlot_available (rids : List Int) (configs : List ResourceSlotConfig)
    (br : List BookingRange) (cm d : Int) :
    (mkSlot rids configs br cm d).available =
      decide (0 < (mkSlot rids configs br cm d).resourceIds.length) := rfl

theorem overlaps_eq_false_iff {a b c d : Int} :
    overlaps a b c d = false ↔ ¬(a < d ∧ c < b) := by
  rw [overlaps]
  by_cases h1 : a < d <;> by_cases h2 : c < b <;> simp [h1, h2]

theorem blockedAny_eq_false_iff {bl : List BlockedSlot} {s e : Int} :
    (bl.any fun b => overlaps s e (parseTime b.start) (parseTime b.stop)) = false ↔
      ∀ b ∈ bl, ¬(s < parseTime b.stop ∧ parseTime b.start < e) := by
  rw [List.any_eq_false]
  exact ⟨fun h b hb => overlaps_eq_false_iff.mp (Bool.eq_false_iff.mpr (h b hb)),
    fun h b hb => Bool.eq_false_iff.mp (overlaps_eq_false_iff.mpr (h b hb))⟩

theorem bookingAny_eq_false_iff {br : List BookingRange} {rid s e : Int} :
    (br.any fun b => b.resourceId == rid && overlaps s e b.start b.stop) = false ↔
      ∀ b ∈ br, b.resourceId = rid → ¬(s < b.stop ∧ b.start < e) := by
  rw [List.any_eq_false]
  constructor
  · intro h b hb hrid
    have hb' : (b.resourceId == rid && overlaps s e b.start b.stop) = false :=
      Bool.eq_false_iff.mpr (h b hb)
    rw [Bool.and_eq_false_iff] at hb'
    rcases hb' with h' | h'
    · rw [beq_eq_false_iff_ne] at h'
      exact absurd hrid h'
    · exact overlaps_eq_false_iff.mp h'
  · intro h b hb
    refine Bool.eq_false_iff.mp ?_
    rw [Bool.and_eq_false_iff]
    by_cases hrid : b.resourceId = rid
    · exact Or.inr (overlaps_eq_false_iff.mpr (h b hb hrid))
    · exact Or.inl (by rwa [beq_eq_false_iff_ne])

/-- The three `continue` guards, as propositions. -/
theorem resourceFree_iff {configs : List ResourceSlotConfig} {br : List BookingRange}
    {s e rid : Int} :
    resourceFree configs br s e rid = true ↔
      (effWorkStart configs rid ≤ s ∧ e ≤ effWorkEnd configs rid) ∧
      (∀ b ∈ effBlocked configs rid, ¬(s < parseTime b.stop ∧ parseTime b.start < e)) ∧
      (∀ b ∈ br, b.resourceId = rid → ¬(s < b.stop ∧ b.start < e)) := by
  simp only [resourceFree, Bool.and_eq_true, Bool.not_eq_true', decide_eq_true_eq]
  rw [blockedAny_eq_false_iff, bookingAny_eq_false_iff]
  tauto

/-- The booking guard over `bookingRanges` restated over the raw bookings:
a booking constrains a slot exactly when both its dates parsed and it
references the resource under consideration. -/
theorem bookingGuard_iff {bookings : List BookingItem} {rid s e : Int} :
    (∀ b ∈ bookingRangesOf bookings, b.resourceId = rid → ¬(s < b.stop ∧ b.start < e)) ↔
      ∀ b ∈ bookings, b.resourceId = rid →
        ∀ bs be, b.dateFrom = some bs → b.dateTo = some be → ¬(s < be ∧ bs < e) := by
  constructor
  · intro h b hb hrid bs be hf ht
    refine h ⟨b.resourceId, bs, be⟩ ?_ hrid
    rw [bookingRangesOf, List.mem_filterMap]
    exact ⟨b, hb, by rw [hf, ht]⟩
  · intro h br hbr hrid
    rw [bookingRangesOf, List.mem_filterMap] at hbr
    obtain ⟨b, hb, hfb⟩ := hbr
    cases hf : b.dateFrom with
    | none => rw [hf] at hfb; exact Option.noConfusion hfb
    | some bs =>
      cases ht : b.dateTo with
      | none => rw [hf, ht] at hfb; exact Option.noConfusion hfb
      | some be =>
        rw [hf, ht] at hfb
        injection hfb with hfb
        subst hfb
        exact h b hb hrid bs be hf ht

/-! ### Lemmas: the config map -/

theorem configByResource_go (configs : List ResourceSlotConfig) (rid : Int)
    (acc : Option ResourceSlotConfig) :
    configs.foldl (fun acc cfg => if cfg.resourceId == rid then some cfg else acc) acc =
      match configByResource configs rid with
      | some c => some c
      | none => acc := by
  induction configs generalizing acc with
  | nil => simp [configByResource]
  | cons c rest ih =>
    rw [List.foldl_cons, ih]
    conv_rhs => rw [configByResource, List.foldl_cons, ih]
    cases hrest : configByResource rest rid with
    | some x => rfl
    | none =>
      by_cases h : c.resourceId == rid
      · simp [h]
      · simp [h]

theorem configByResource_append (l1 l2 : List ResourceSlotConfig) (rid : Int) :
    configByResource (l1 ++ l2) rid =
      match configByResource l2 rid with
      | some c => some c
      | none => configByResource l1 rid := by
  rw [configByResource, List.foldl_append]
  exact configByResource_go l2 rid _

theorem configByResource_cons (c : ResourceSlotConfig) (l : List ResourceSlotConfig) (rid : Int) :
    configByResource (c :: l) rid =
      match configByResource l rid with
      | some x => some x
      | none => if c.resourceId == rid then some c else none := by
  rw [configByResource, List.foldl_cons]
  exact configByResource_go l rid _

theorem configByResource_no_match {l : List ResourceSlotConfig} {rid : Int}
    (h : ∀ c ∈ l, c.resourceId ≠ rid) : configByResource l rid = none := by
  induction l with
  | nil => rfl
  | cons c rest ih =>
    rw [configByResource_cons, ih fun x hx => h x (List.mem_cons_of_mem c hx)]
    simp [h c (List.mem_cons_self c rest)]

/-! ### Lemmas: the global window bounds are the parsed min and max -/

theorem parseTime_default_start : parseTime DEFAULT_START_TIME = 480 := by decide

theorem parseTime_default_end : parseTime DEFAULT_END_TIME = 1200 := by decide

theorem gsStart_eq_min {configs : List ResourceSlotConfig} (hne : configs ≠ [])
    (hvalid : ∀ cfg ∈ configs, ValidTime cfg.workStart) :
    unionStartOfConfigs configs = some (gsStart configs) := by
  have hall : ∀ s ∈ configs.map (·.workStart), ValidTime s := by
    intro s hs
    obtain ⟨cfg, hc, rfl⟩ := List.mem_map.mp hs
    exact hvalid cfg hc
  have hfilter : (configs.map (·.workStart)).filter (fun s => s != "") =
      configs.map (·.workStart) := by
    rw [List.filter_eq_self]
    intro s hs
    simpa [bne_iff_ne] using validTime_ne_empty (hall s hs)
  have hLne : configs.map (·.workStart) ≠ [] := by
    simpa using hne
  obtain ⟨hmem, hmin⟩ := jsSort_headD_min (configs.map (·.workStart)) hLne DEFAULT_START_TIME
  rw [unionStartOfConfigs, show (configs.map fun c => parseTime c.workStart) =
    (configs.map (·.workStart)).map parseTime from by simp [List.map_map, Function.comp]]
  have hgs : gsStart configs =
      parseTime ((jsSortStrings (configs.map (·.workStart))).headD DEFAULT_START_TIME) := by
    rw [gsStart, hfilter]
  letI anti : Std.Antisymm ((· : Int) ≤ ·) := ⟨fun h1 h2 => le_antisymm h1 h2⟩
  refine (List.min?_eq_some_iff (fun a : Int => le_refl a) (fun a b => min_choice a b)
    (fun a b c => le_min_iff)).mpr ⟨?_, ?_⟩
  · rw [hgs]
    exact List.mem_map_of_mem parseTime hmem
  · intro b hb
    obtain ⟨x, hx, rfl⟩ := List.mem_map.mp hb
    rw [hgs]
    exact jsLe_parseTime_mono (hall _ hmem) (hall x hx) (hmin x hx)

theorem gsEnd_eq_max {configs : List ResourceSlotConfig} (hne : configs ≠ [])
    (hvalid : ∀ cfg ∈ configs, ValidTime cfg.workEnd) :
    unionEndOfConfigs configs = some (gsEnd configs) := by
  have hall : ∀ s ∈ configs.map (·.workEnd), ValidTime s := by
    intro s hs
    obtain ⟨cfg, hc, rfl⟩ := List.mem_map.mp hs
    exact hvalid cfg hc
  have hfilter : (configs.map (·.workEnd)).filter (fun s => s != "") =
      configs.map (·.workEnd) := by
    rw [List.filter_eq_self]
    intro s hs
    simpa [bne_iff_ne] using validTime_ne_empty (hall s hs)
  have hLne : configs.map (·.workEnd) ≠ [] := by
    simpa using hne
  obtain ⟨hmem, hmax⟩ := jsSort_getLastD_max (configs.map (·.workEnd)) hLne DEFAULT_END_TIME
  rw [unionEndOfConfigs, show (configs.map fun c => parseTime c.workEnd) =
    (configs.map (·.workEnd)).map parseTime from by simp [List.map_map, Function.comp]]
  have hgs : gsEnd configs =
      parseTime ((jsSortStrings (configs.map (·.workEnd))).getLastD DEFAULT_END_TIME) := by
    rw [gsEnd, hfilter]
  letI anti : Std.Antisymm ((· : Int) ≤ ·) := ⟨fun h1 h2 => le_antisymm h1 h2⟩
  refine (List.max?_eq_some_iff (fun a : Int => le_refl a) (fun a b => max_choice a b)
    (fun a b c => max_le_iff)).mpr ⟨?_, ?_⟩
  · rw [hgs]
    exact List.mem_map_of_mem parseTime hmem
  · intro b hb
    obtain ⟨x, hx, rfl⟩ := List.mem_map.mp hb
    rw [hgs]
    exact jsLe_parseTime_mono (hall x hx) (hall _ hmem) (hmax x hx)

theorem gsStart_mem_parses {configs : List ResourceSlotConfig} (hne : configs ≠ [])
    (hvalid : ∀ cfg ∈ configs, ValidTime cfg.workStart) :
    ∃ cfg ∈ configs, gsStart configs = parseTime cfg.workStart := by
  have h := gsStart_eq_min hne hvalid
  rw [unionStartOfConfigs] at h
  have hmem := List.min?_mem (fun a b : Int => min_choice a b) h
  obtain ⟨cfg, hc, heq⟩ := List.mem_map.mp hmem
  exact ⟨cfg, hc, heq.symm⟩

theorem gsEnd_mem_parses {configs : List ResourceSlotConfig} (hne : configs ≠ [])
    (hvalid : ∀ cfg ∈ configs, ValidTime cfg.workEnd) :
    ∃ cfg ∈ configs, gsEnd configs = parseTime cfg.workEnd := by
  have h := gsEnd_eq_max hne hvalid
  rw [unionEndOfConfigs] at h
  have hmem := List.max?_mem (fun a b : Int => max_choice a b) h
  obtain ⟨cfg, hc, heq⟩ := List.mem_map.mp hmem
  exact ⟨cfg, hc, heq.symm⟩

/-! ### Lemmas: the default grid -/

theorem generateDefaultSlots_length (d : Int) (rids : List Int) (bl : List BlockedSlot) :
    (generateDefaultSlots d rids bl).length = slotCount 480 1200 d := by
  simp [generateDefaultSlots, parseTime_default_start, parseTime_default_end]

theorem generateDefaultSlots_nil_blocked (d : Int) (rids : List Int) (k : Nat)
    (hk : k < (generateDefaultSlots d rids []).length) :
    (generateDefaultSlots d rids []).get ⟨k, hk⟩ =
      { startTime := formatTime (480 + k * d)
        endTime := formatTime (480 + k * d + d)
        available := true
        resourceIds := rids } := by
  simp [generateDefaultSlots, parseTime_default_start]

/-! ### Claim C1 -/

/-- **C1**: for every emitted slot and every requested resource id, the
resource appears in that slot's `availableResourceIds` iff the slot interval
lies fully inside that resource's (effective) working window, the slot
overlaps none of that resource's blocked intervals, and the slot overlaps no
existing booking (with successfully parsed dates) whose `resourceId` equals
that resource — bookings referencing other resources never exclude it. -/
theorem claim1_available_resource_iff
    (resourceIds : List Int) (configs : List ResourceSlotConfig)
    (bookings : List BookingItem) (d : Int) (slot : TimeSlot)
    (hslot : slot ∈ generateSlots resourceIds configs bookings d)
    (rid : Int) (hrid : rid ∈ resourceIds) :
    rid ∈ slot.resourceIds ↔
      (effWorkStart configs rid ≤ parseTime slot.startTime ∧
        parseTime slot.endTime ≤ effWorkEnd configs rid) ∧
      (∀ b ∈ effBlocked configs rid,
        ¬(parseTime slot.startTime < parseTime b.stop ∧
          parseTime b.start < parseTime slot.endTime)) ∧
      (∀ b ∈ bookings, b.resourceId = rid → ∀ bs be, b.dateFrom = some bs →
        b.dateTo = some be →
        ¬(parseTime slot.startTime < be ∧ bs < parseTime slot.endTime)) := by
  obtain ⟨k, hk, rfl⟩ := mem_generateSlots.mp hslot
  rw [mkSlot_resourceIds, mkSlot_startTime, mkSlot_endTime, List.mem_filter,
    and_iff_right hrid, resourceFree_iff, bookingGuard_iff]

theorem claim1_witness :
    (⟨"08:00", "09:00", true, [1]⟩ : TimeSlot) ∈ generateSlots [1] [] [] 60 ∧
    (1 : Int) ∈ [(1 : Int)] ∧
    ((1 : Int) ∈ (⟨"08:00", "09:00", true, [1]⟩ : TimeSlot).resourceIds ↔
      (effWorkStart [] 1 ≤ parseTime (⟨"08:00", "09:00", true, [1]⟩ : TimeSlot).startTime ∧
        parseTime (⟨"08:00", "09:00", true, [1]⟩ : TimeSlot).endTime ≤ effWorkEnd [] 1) ∧
      (∀ b ∈ effBlocked [] 1,
        ¬(parseTime (⟨"08:00", "09:00", true, [1]⟩ : TimeSlot).startTime < parseTime b.stop ∧
          parseTime b.start < parseTime (⟨"08:00", "09:00", true, [1]⟩ : TimeSlot).endTime)) ∧
      (∀ b ∈ ([] : List BookingItem), b.resourceId = 1 → ∀ bs be, b.dateFrom = some bs →
        b.dateTo = some be →
        ¬(parseTime (⟨"08:00", "09:00", true, [1]⟩ : TimeSlot).startTime < be ∧
          bs < parseTime (⟨"08:00", "09:00", true, [1]⟩ : TimeSlot).endTime))) :=
  ⟨by decide, by decide,
    claim1_available_resource_iff [1] [] [] 60 ⟨"08:00", "09:00", true, [1]⟩ (by decide) 1
      (by decide)⟩

/-! ### Claim C7 -/

/-- **C7**: a requested resource absent from the configuration list does not
make the calculator fail; its availability is judged against the fallback
working window 08:00–20:00 (480–1200 minutes) and it has no blocked
intervals, so it is listed in a slot iff the slot lies inside the fallback
window and no parsed booking of that resource overlaps the slot. -/
theorem claim7_fallback_window
    (resourceIds : List Int) (configs : List ResourceSlotConfig)
    (bookings : List BookingItem) (d : Int) (slot : TimeSlot)
    (hslot : slot ∈ generateSlots resourceIds configs bookings d)
    (rid : Int) (hrid : rid ∈ resourceIds)
    (hnone : configByResource configs rid = none) :
    rid ∈ slot.resourceIds ↔
      (480 ≤ parseTime slot.startTime ∧ parseTime slot.endTime ≤ 1200) ∧
      (∀ b ∈ bookings, b.resourceId = rid → ∀ bs be, b.dateFrom = some bs →
        b.dateTo = some be →
        ¬(parseTime slot.startTime < be ∧ bs < parseTime slot.endTime)) := by
  obtain ⟨k, hk, rfl⟩ := mem_generateSlots.mp hslot
  have hws : effWorkStart configs rid = 480 := by
    rw [effWorkStart, hnone]
    exact parseTime_default_start
  have hwe : effWorkEnd configs rid = 1200 := by
    rw [effWorkEnd, hnone]
    exact parseTime_default_end
  have hbl : effBlocked configs rid = [] := by
    rw [effBlocked, hnone]
    rfl
  rw [mkSlot_resourceIds, mkSlot_startTime, mkSlot_endTime, List.mem_filter,
    and_iff_right hrid, resourceFree_iff, bookingGuard_iff, hws, hwe, hbl]
  simp

theorem claim7_witness :
    (⟨"08:00", "09:00", true, [5]⟩ : TimeSlot) ∈ generateSlots [5] [] [] 60 ∧
    (5 : Int) ∈ [(5 : Int)] ∧
    configByResource [] 5 = none ∧
    ((5 : Int) ∈ (⟨"08:00", "09:00", true, [5]⟩ : TimeSlot).resourceIds ↔
      (480 ≤ parseTime (⟨"08:00", "09:00", true, [5]⟩ : TimeSlot).startTime ∧
        parseTime (⟨"08:00", "09:00", true, [5]⟩ : TimeSlot).endTime ≤ 1200) ∧
      (∀ b ∈ ([] : List BookingItem), b.resourceId = 5 → ∀ bs be, b.dateFrom = some bs →
        b.dateTo = some be →
        ¬(parseTime (⟨"08:00", "09:00", true, [5]⟩ : TimeSlot).startTime < be ∧
          bs < parseTime (⟨"08:00", "09:00", true, [5]⟩ : TimeSlot).endTime))) :=
  ⟨by decide, by decide, by decide,
    claim7_fallback_window [5] [] [] 60 ⟨"08:00", "09:00", true, [5]⟩ (by decide) 5 (by decide)
      (by decide)⟩

/-! ### Claim C9 -/

/-- **C9**: every emitted slot's `availableResourceIds` is a subsequence of
the requested `resourceIds` list (same relative order, each id at most as
often as requested). -/
theorem claim9_available_sublist
    (resourceIds : List Int) (configs : List ResourceSlotConfig)
    (bookings : List BookingItem) (d : Int) (slot : TimeSlot)
    (hslot : slot ∈ generateSlots resourceIds configs bookings d) :
    slot.resourceIds.Sublist resourceIds := by
  obtain ⟨k, hk, rfl⟩ := mem_generateSlots.mp hslot
  rw [mkSlot_resourceIds]
  exact List.filter_sublist _

theorem claim9_witness :
    (⟨"11:00", "12:00", true, [1]⟩ : TimeSlot) ∈
        generateSlots [1, 2] [⟨2, "11:00", "12:00", 60, []⟩] [⟨3, 2, some 660, some 720⟩] 60 ∧
    (⟨"11:00", "12:00", true, [1]⟩ : TimeSlot).resourceIds.Sublist [1, 2] :=
  ⟨by decide,
    claim9_available_sublist [1, 2] [⟨2, "11:00", "12:00", 60, []⟩] [⟨3, 2, some 660, some 720⟩]
      60 ⟨"11:00", "12:00", true, [1]⟩ (by decide)⟩

/-! ### Claim C10 -/

/-- **C10**: a booking whose start or end failed to parse as a valid date is
silently dropped: the computed slot sequence equals the one computed with
that booking removed from the input (and the computation never fails — the
embedding is a total function). -/
theorem claim10_invalid_booking_dropped
    (resourceIds : List Int) (configs : List ResourceSlotConfig) (d : Int)
    (l1 l2 : List BookingItem) (b : BookingItem)
    (hb : b.dateFrom = none ∨ b.dateTo = none) :
    generateSlots resourceIds configs (l1 ++ b :: l2) d =
      generateSlots resourceIds configs (l1 ++ l2) d := by
  have hbr : bookingRangesOf (l1 ++ b :: l2) = bookingRangesOf (l1 ++ l2) := by
    rw [bookingRangesOf, bookingRangesOf, List.filterMap_append, List.filterMap_append,
      List.filterMap_cons]
    rcases hb with h | h
    · cases h2 : b.dateTo <;> simp [h, h2]
    · cases h2 : b.dateFrom <;> simp [h, h2]
  rw [generateSlots, generateSlots, hbr]

theorem claim10_witness :
    ((⟨9, 1, none, some 600⟩ : BookingItem).dateFrom = none ∨
      (⟨9, 1, none, some 600⟩ : BookingItem).dateTo = none) ∧
    generateSlots [1] [⟨1, "09:00", "11:00", 60, []⟩] ([] ++ ⟨9, 1, none, some 600⟩ :: []) 60 =
      generateSlots [1] [⟨1, "09:00", "11:00", 60, []⟩] ([] ++ []) 60 :=
  ⟨Or.inl rfl,
    claim10_invalid_booking_dropped [1] [⟨1, "09:00", "11:00", 60, []⟩] 60 [] []
      ⟨9, 1, none, some 600⟩ (Or.inl rfl)⟩

/-! ### More default-grid helpers -/

theorem mem_generateDefaultSlots_nil {d : Int} {rids : List Int} {slot : TimeSlot} :
    slot ∈ generateDefaultSlots d rids [] ↔
      ∃ k : Nat, k < slotCount 480 1200 d ∧
        slot = { startTime := formatTime (480 + k * d)
                 endTime := formatTime (480 + k * d + d)
                 available := true
                 resourceIds := rids } := by
  simp only [generateDefaultSlots, parseTime_default_start, parseTime_default_end,
    List.mem_map, List.mem_range, List.any_nil, Bool.not_false, if_neg Bool.false_ne_true]
  constructor
  · rintro ⟨k, hk, rfl⟩
    exact ⟨k, hk, rfl⟩
  · rintro ⟨k, hk, rfl⟩
    exact ⟨k, hk, rfl⟩

theorem generateSlots_available_iff {rids : List Int} {configs : List ResourceSlotConfig}
    {bookings : List BookingItem} {d : Int} {slot : TimeSlot}
    (h : slot ∈ generateSlots rids configs bookings d) :
    slot.available = true ↔ slot.resourceIds ≠ [] := by
  obtain ⟨k, hk, rfl⟩ := mem_generateSlots.mp h
  rw [mkSlot_available, decide_eq_true_eq, List.length_pos]

theorem defaultSlots_available {d : Int} {rids : List Int} {slot : TimeSlot}
    (h : slot ∈ generateDefaultSlots d rids []) :
    slot.available = true ∧ slot.resourceIds = rids := by
  obtain ⟨k, hk, rfl⟩ := mem_generateDefaultSlots_nil.mp h
  exact ⟨rfl, rfl⟩

/-! ### Claim C3 -/

/-- **C3 counterexample**: with an empty `resourceIds` the service returns
the default grid, whose slots are marked available while listing no
resources — so "`isAvailable` iff `availableResourceIds` non-empty" fails
for that returned sequence. -/
theorem claim3_counterexample :
    ∃ slot ∈ getAvailableSlots [] (Except.ok ([], [])) 60,
      slot.available = true ∧ slot.resourceIds = [] := by decide

/-- **C3 amended**: every slot produced by `generateSlots` satisfies
`available = true ↔ availableResourceIds ≠ []`; the same equivalence holds
for every sequence `getAvailableSlots` returns when the requested
`resourceIds` list is non-empty.  When it is empty, every slot of the
returned default grid is marked available with an empty resource list. -/
theorem claim3_amended_available_iff :
    (∀ (resourceIds : List Int) (configs : List ResourceSlotConfig)
        (bookings : List BookingItem) (d : Int) (slot : TimeSlot),
      slot ∈ generateSlots resourceIds configs bookings d →
      (slot.available = true ↔ slot.resourceIds ≠ [])) ∧
    (∀ (resourceIds : List Int)
        (fetched : Except Unit (List ResourceSlotConfig × List BookingItem))
        (d : Int) (slot : TimeSlot), resourceIds ≠ [] →
      slot ∈ getAvailableSlots resourceIds fetched d →
      (slot.available = true ↔ slot.resourceIds ≠ [])) ∧
    (∀ (fetched : Except Unit (List ResourceSlotConfig × List BookingItem)) (d : Int)
        (slot : TimeSlot), slot ∈ getAvailableSlots [] fetched d →
      slot.available = true ∧ slot.resourceIds = []) := by
  refine ⟨fun rids configs bookings d slot h => generateSlots_available_iff h, ?_, ?_⟩
  · intro rids fetched d slot hne hmem
    rw [getAvailableSlots.eq_def, if_neg (fun h0 => hne (List.length_eq_zero.mp h0))] at hmem
    match fetched with
    | .ok (configs, bookings) => exact generateSlots_available_iff hmem
    | .error _ =>
      obtain ⟨ha, hr⟩ := defaultSlots_available hmem
      rw [ha, hr]
      simp [hne]
  · intro fetched d slot hmem
    rw [getAvailableSlots.eq_def, if_pos (show ([] : List Int).length = 0 from rfl)] at hmem
    exact defaultSlots_available hmem

theorem claim3_witness :
    ((⟨"08:00", "09:00", true, [1]⟩ : TimeSlot).available = true ↔
      (⟨"08:00", "09:00", true, [1]⟩ : TimeSlot).resourceIds ≠ []) :=
  claim3_amended_available_iff.1 [1] [] [] 60 ⟨"08:00", "09:00", true, [1]⟩ (by decide)

/-! ### Claim C4 -/

/-- **C4 counterexample**: with an empty `resourceIds` set and the default
60-minute duration the service does not return an empty sequence — it
returns the 12-slot default grid. -/
theorem claim4_counterexample :
    (getAvailableSlots [] (Except.ok ([], [])) 60).length = 12 := by decide

/-- **C4 amended**: if the requested `resourceIds` set is empty, the service
returns the default grid tiling 08:00–20:00 (480–1200 minutes) at the given
positive slot duration — every slot marked available with an empty
`availableResourceIds` — rather than an empty sequence. -/
theorem claim4_amended_default_grid
    (fetched : Except Unit (List ResourceSlotConfig × List BookingItem)) (d : Int)
    (hd : 0 < d) :
    getAvailableSlots [] fetched d = generateDefaultSlots d [] [] ∧
    (∀ slot ∈ getAvailableSlots [] fetched d,
      ∃ k : Nat, slot = { startTime := formatTime (480 + k * d)
                          endTime := formatTime (480 + k * d + d)
                          available := true
                          resourceIds := ([] : List Int) }) ∧
    (∀ k : Nat, k < (getAvailableSlots [] fetched d).length ↔ 480 + k * d + d ≤ 1200) := by
  have h0 : getAvailableSlots [] fetched d = generateDefaultSlots d [] [] := by
    rw [getAvailableSlots.eq_def, if_pos (show ([] : List Int).length = 0 from rfl)]
  refine ⟨h0, ?_, ?_⟩
  · intro slot hmem
    rw [h0] at hmem
    obtain ⟨k, _, rfl⟩ := mem_generateDefaultSlots_nil.mp hmem
    exact ⟨k, rfl⟩
  · intro k
    rw [h0, generateDefaultSlots_length, lt_slotCount_iff hd]

theorem claim4_witness :
    getAvailableSlots [] (Except.ok ([], [])) 60 = generateDefaultSlots 60 [] [] :=
  (claim4_amended_default_grid (Except.ok ([], [])) 60 (by decide)).1

/-! ### Claim C8 -/

/-- **C8**: if retrieving the configurations or bookings throws, the error
is not propagated: the service returns the default grid tiling 08:00–20:00
(480–1200 minutes) at the given positive slot duration, every slot marked
available and carrying the full requested `resourceIds` list — existing
bookings are not reflected at all. -/
theorem claim8_error_default_grid (resourceIds : List Int) (d : Int) (hd : 0 < d) :
    getAvailableSlots resourceIds (Except.error ()) d = generateDefaultSlots d resourceIds [] ∧
    (∀ slot ∈ getAvailableSlots resourceIds (Except.error ()) d,
      slot.available = true ∧ slot.resourceIds = resourceIds ∧
      ∃ k : Nat, slot.startTime = formatTime (480 + k * d) ∧
        slot.endTime = formatTime (480 + k * d + d)) ∧
    (∀ k : Nat,
      k < (getAvailableSlots resourceIds (Except.error ()) d).length ↔
        480 + k * d + d ≤ 1200) := by
  have h0 : getAvailableSlots resourceIds (Except.error ()) d =
      generateDefaultSlots d resourceIds [] := by
    rw [getAvailableSlots.eq_def]
    by_cases h : resourceIds.length = 0
    · rw [if_pos h, List.length_eq_zero.mp h]
    · rw [if_neg h]
  refine ⟨h0, ?_, ?_⟩
  · intro slot hmem
    rw [h0] at hmem
    obtain ⟨k, _, rfl⟩ := mem_generateDefaultSlots_nil.mp hmem
    exact ⟨rfl, rfl, k, rfl, rfl⟩
  · intro k
    rw [h0, generateDefaultSlots_length, lt_slotCount_iff hd]

theorem claim8_witness :
    getAvailableSlots [7] (Except.error ()) 60 = generateDefaultSlots 60 [7] [] :=
  (claim8_error_default_grid [7] 60 (by decide)).1

/-! ### Claim C5 -/

/-- A booking that merely touches a slot's boundary (its end equals the slot
start, or its start equals the slot end) has no effect on that slot. -/
theorem mkSlot_touching_booking (rids : List Int) (configs : List ResourceSlotConfig)
    (l1 l2 : List BookingItem) (bk : BookingItem) (cm d : Int)
    (htouch : bk.dateTo = some (parseTime (formatTime cm)) ∨
      bk.dateFrom = some (parseTime (formatTime (cm + d)))) :
    mkSlot rids configs (bookingRangesOf (l1 ++ bk :: l2)) cm d =
      mkSlot rids configs (bookingRangesOf (l1 ++ l2)) cm d := by
  cases hf : bk.dateFrom with
  | none =>
    have hbr : bookingRangesOf (l1 ++ bk :: l2) = bookingRangesOf (l1 ++ l2) := by
      cases ht : bk.dateTo <;>
        simp [bookingRangesOf, List.filterMap_append, List.filterMap_cons, hf, ht]
    rw [hbr]
  | some bs =>
    cases ht : bk.dateTo with
    | none =>
      have hbr : bookingRangesOf (l1 ++ bk :: l2) = bookingRangesOf (l1 ++ l2) := by
        simp [bookingRangesOf, List.filterMap_append, List.filterMap_cons, hf, ht]
      rw [hbr]
    | some be =>
      have hbr : bookingRangesOf (l1 ++ bk :: l2) =
          bookingRangesOf l1 ++ ⟨bk.resourceId, bs, be⟩ :: bookingRangesOf l2 := by
        simp [bookingRangesOf, List.filterMap_append, List.filterMap_cons, hf, ht]
      have hbr2 : bookingRangesOf (l1 ++ l2) = bookingRangesOf l1 ++ bookingRangesOf l2 := by
        simp [bookingRangesOf, List.filterMap_append]
      have hno : overlaps (parseTime (formatTime cm)) (parseTime (formatTime (cm + d))) bs be
          = false := by
        rcases htouch with h | h
        · rw [ht] at h
          injection h with h
          subst h
          simp [overlaps]
        · rw [hf] at h
          injection h with h
          subst h
          simp [overlaps]
      have hpred : ∀ rid ∈ rids,
          resourceFree configs (bookingRangesOf l1 ++ ⟨bk.resourceId, bs, be⟩ ::
              bookingRangesOf l2)
            (parseTime (formatTime cm)) (parseTime (formatTime (cm + d))) rid =
          resourceFree configs (bookingRangesOf l1 ++ bookingRangesOf l2)
            (parseTime (formatTime cm)) (parseTime (formatTime (cm + d))) rid := by
        intro rid _
        simp only [resourceFree, List.any_append, List.any_cons, hno, Bool.and_false,
          Bool.false_or]
      rw [hbr, hbr2]
      simp only [mkSlot, List.filter_congr hpred]

/-- A blocked interval that merely touches a slot's boundary has no effect
on that slot. -/
theorem mkSlot_touching_blocked (rids : List Int) (l1 l2 : List ResourceSlotConfig)
    (c : ResourceSlotConfig) (br : List BookingRange) (t1 t2 : String) (cm d : Int)
    (hlast : ∀ x ∈ l2, x.resourceId ≠ c.resourceId)
    (htouch : parseTime t2 = parseTime (formatTime cm) ∨
      parseTime t1 = parseTime (formatTime (cm + d))) :
    mkSlot rids (l1 ++ { c with blockedSlots := c.blockedSlots ++ [⟨t1, t2⟩] } :: l2) br cm d =
      mkSlot rids (l1 ++ c :: l2) br cm d := by
  set c' : ResourceSlotConfig := { c with blockedSlots := c.blockedSlots ++ [⟨t1, t2⟩] }
    with hc'
  have hno : overlaps (parseTime (formatTime cm)) (parseTime (formatTime (cm + d)))
      (parseTime t1) (parseTime t2) = false := by
    rcases htouch with h | h
    · rw [h]
      simp [overlaps]
    · rw [h]
      simp [overlaps]
  simp only [mkSlot]
  have hpred : ∀ rid ∈ rids,
      resourceFree (l1 ++ c' :: l2) br (parseTime (formatTime cm))
          (parseTime (formatTime (cm + d))) rid =
      resourceFree (l1 ++ c :: l2) br (parseTime (formatTime cm))
          (parseTime (formatTime (cm + d))) rid := by
    intro rid _
    by_cases hr : rid = c.resourceId
    · have hl2 : configByResource l2 rid = none := by
        rw [hr]
        exact configByResource_no_match hlast
      have hlookA : configByResource (l1 ++ c' :: l2) rid = some c' := by
        rw [configByResource_append, configByResource_cons, hl2]
        simp [hc', hr]
      have hlookB : configByResource (l1 ++ c :: l2) rid = some c := by
        rw [configByResource_append, configByResource_cons, hl2]
        simp [hr]
      simp only [resourceFree, effWorkStart, effWorkEnd, effBlocked, hlookA, hlookB,
        Option.map_some', Option.getD_some, hc']
      simp only [List.any_append, List.any_cons, List.any_nil, Bool.or_false, hno,
        Bool.and_false]
    · have hbeq' : (c'.resourceId == rid) = false := by
        simp [hc', beq_eq_false_iff_ne]
        exact fun hcr => hr hcr.symm
      have hbeq : (c.resourceId == rid) = false :=
        beq_eq_false_iff_ne.mpr fun hcr => hr hcr.symm
      have hlook : configByResource (l1 ++ c' :: l2) rid =
          configByResource (l1 ++ c :: l2) rid := by
        rw [configByResource_append, configByResource_append, configByResource_cons,
          configByResource_cons]
        cases h2 : configByResource l2 rid <;> simp [hbeq, hbeq', h2]
      simp only [resourceFree, effWorkStart, effWorkEnd, effBlocked, hlook]
  rw [List.filter_congr hpred]

/-- **C5**: interval exclusion is half-open — `overlaps` holds iff
`a < d ∧ c < b` — and consequently a booking (or a blocked interval of the
resource's effective configuration) whose end instant equals a slot's start,
or whose start instant equals the slot's end, has no effect on that slot:
the slot (including its `availableResourceIds`) is the one computed with
that booking (resp. blocked interval) removed. -/
theorem claim5_half_open_adjacency :
    (∀ a b c d : Int, overlaps a b c d = true ↔ a < d ∧ c < b) ∧
    (∀ (resourceIds : List Int) (configs : List ResourceSlotConfig) (d : Int)
        (l1 l2 : List BookingItem) (bk : BookingItem) (k : Nat) (slot : TimeSlot),
      (generateSlots resourceIds configs (l1 ++ bk :: l2) d)[k]? = some slot →
      (bk.dateTo = some (parseTime slot.startTime) ∨
        bk.dateFrom = some (parseTime slot.endTime)) →
      (generateSlots resourceIds configs (l1 ++ l2) d)[k]? = some slot) ∧
    (∀ (resourceIds : List Int) (l1 l2 : List ResourceSlotConfig) (c : ResourceSlotConfig)
        (bookings : List BookingItem) (d : Int) (t1 t2 : String) (k : Nat) (slot : TimeSlot),
      (∀ x ∈ l2, x.resourceId ≠ c.resourceId) →
      (generateSlots resourceIds
        (l1 ++ { c with blockedSlots := c.blockedSlots ++ [⟨t1, t2⟩] } :: l2) bookings d)[k]? =
          some slot →
      (parseTime t2 = parseTime slot.startTime ∨ parseTime t1 = parseTime slot.endTime) →
      (generateSlots resourceIds (l1 ++ c :: l2) bookings d)[k]? = some slot) := by
  refine ⟨?_, ?_, ?_⟩
  · intro a b c d
    simp [overlaps, and_comm]
  · intro rids configs d l1 l2 bk k slot hget htouch
    have hk : k < slotCount (gsStart configs) (gsEnd configs) d := by
      by_contra hnk
      have hlen : (generateSlots rids configs (l1 ++ bk :: l2) d).length ≤ k := by
        rw [generateSlots_length]
        exact not_lt.mp hnk
      rw [List.getElem?_eq_none hlen] at hget
      exact Option.noConfusion hget
    rw [generateSlots, List.getElem?_map, List.getElem?_range hk, Option.map_some'] at hget
    rw [generateSlots, List.getElem?_map, List.getElem?_range hk, Option.map_some']
    have hslot := Option.some.inj hget
    rw [← hslot] at htouch ⊢
    rw [mkSlot_startTime, mkSlot_endTime] at htouch
    exact congrArg some (mkSlot_touching_booking rids configs l1 l2 bk _ d htouch).symm
  · intro rids l1 l2 c bookings d t1 t2 k slot hlast hget htouch
    set c' : ResourceSlotConfig := { c with blockedSlots := c.blockedSlots ++ [⟨t1, t2⟩] }
      with hc'
    have hgsS : gsStart (l1 ++ c' :: l2) = gsStart (l1 ++ c :: l2) := by
      rw [gsStart, gsStart]
      congr 2
      simp [hc']
    have hgsE : gsEnd (l1 ++ c' :: l2) = gsEnd (l1 ++ c :: l2) := by
      rw [gsEnd, gsEnd]
      congr 2
      simp [hc']
    have hk : k < slotCount (gsStart (l1 ++ c :: l2)) (gsEnd (l1 ++ c :: l2)) d := by
      by_contra hnk
      have hlen : (generateSlots rids (l1 ++ c' :: l2) bookings d).length ≤ k := by
        rw [generateSlots_length, hgsS, hgsE]
        exact not_lt.mp hnk
      rw [List.getElem?_eq_none hlen] at hget
      exact Option.noConfusion hget
    rw [generateSlots, hgsS, hgsE, List.getElem?_map, List.getElem?_range hk,
      Option.map_some'] at hget
    rw [generateSlots, List.getElem?_map, List.getElem?_range hk, Option.map_some']
    have hslot := Option.some.inj hget
    rw [← hslot] at htouch ⊢
    rw [mkSlot_startTime, mkSlot_endTime] at htouch
    exact congrArg some (mkSlot_touching_blocked rids l1 l2 c _ t1 t2 _ d hlast htouch).symm

theorem claim5_witness :
    (generateSlots [1] [] ([] ++ []) 60)[0]? = some ⟨"08:00", "09:00", true, [1]⟩ :=
  claim5_half_open_adjacency.2.1 [1] [] 60 [] [] ⟨4, 1, some 420, some 480⟩ 0
    ⟨"08:00", "09:00", true, [1]⟩ (by decide) (Or.inl (by decide))

/-! ### Claim C2 -/

/-- **C2**: with a non-empty request, a (well-formed `HH:MM`) working-window
configuration supplied for each requested resource, and a positive slot
duration, the emitted sequence tiles the union window
`[min workStart, max workEnd)`: slot `k` spans
`[minM + k·d, minM + (k+1)·d)` (both as the formatted strings and as their
parsed minute values), slots are strictly ascending by start time, and a
slot is emitted iff its full span fits before the union end (no partial
trailing slot). -/
theorem claim2_union_tiling
    (resourceIds : List Int) (configs : List ResourceSlotConfig)
    (bookings : List BookingItem) (d : Int)
    (hne : resourceIds ≠ [])
    (hcfg : ∀ rid ∈ resourceIds, ∃ cfg ∈ configs, cfg.resourceId = rid)
    (hvalid : ∀ cfg ∈ configs, ValidTime cfg.workStart ∧ ValidTime cfg.workEnd)
    (hd : 0 < d) (minM maxM : Int)
    (hmin : unionStartOfConfigs configs = some minM)
    (hmax : unionEndOfConfigs configs = some maxM) :
    (∀ (k : Nat) (hk : k < (generateSlots resourceIds configs bookings d).length),
      ((generateSlots resourceIds configs bookings d).get ⟨k, hk⟩).startTime =
          formatTime (minM + k * d) ∧
        ((generateSlots resourceIds configs bookings d).get ⟨k, hk⟩).endTime =
          formatTime (minM + k * d + d) ∧
        parseTime ((generateSlots resourceIds configs bookings d).get ⟨k, hk⟩).startTime =
          minM + k * d ∧
        parseTime ((generateSlots resourceIds configs bookings d).get ⟨k, hk⟩).endTime =
          minM + k * d + d) ∧
    (∀ (j k : Nat) (hj : j < (generateSlots resourceIds configs bookings d).length)
        (hk : k < (generateSlots resourceIds configs bookings d).length), j < k →
      parseTime ((generateSlots resourceIds configs bookings d).get ⟨j, hj⟩).startTime <
        parseTime ((generateSlots resourceIds configs bookings d).get ⟨k, hk⟩).startTime) ∧
    (∀ k : Nat, k < (generateSlots resourceIds configs bookings d).length ↔
      minM + k * d + d ≤ maxM) := by
  have hcne : configs ≠ [] := by
    obtain ⟨rid, hr⟩ := List.exists_mem_of_ne_nil resourceIds hne
    obtain ⟨cfg, hc, _⟩ := hcfg rid hr
    exact List.ne_nil_of_mem hc
  have hminS := gsStart_eq_min hcne fun c h => (hvalid c h).1
  have hmaxE := gsEnd_eq_max hcne fun c h => (hvalid c h).2
  rw [hminS] at hmin
  rw [hmaxE] at hmax
  have h1 : gsStart configs = minM := Option.some.inj hmin
  have h2 : gsEnd configs = maxM := Option.some.inj hmax
  obtain ⟨cfgS, hcS, heqS⟩ := gsStart_mem_parses hcne fun c h => (hvalid c h).1
  obtain ⟨cfgE, hcE, heqE⟩ := gsEnd_mem_parses hcne fun c h => (hvalid c h).2
  have hminb : 0 ≤ minM ∧ minM < 1440 := by
    rw [← h1, heqS]
    exact parseTime_valid_bounds (hvalid cfgS hcS).1
  have hmaxb : 0 ≤ maxM ∧ maxM < 1440 := by
    rw [← h2, heqE]
    exact parseTime_valid_bounds (hvalid cfgE hcE).2
  have hiff : ∀ k : Nat, k < (generateSlots resourceIds configs bookings d).length ↔
      minM + k * d + d ≤ maxM := by
    intro k
    rw [generateSlots_length, h1, h2, lt_slotCount_iff hd]
  have hbounds : ∀ k : Nat, k < (generateSlots resourceIds configs bookings d).length →
      0 ≤ minM + k * d ∧ minM + k * d < 6000 ∧ 0 ≤ minM + k * d + d ∧
        minM + k * d + d < 6000 := by
    intro k hk
    have hfit := (hiff k).mp hk
    have hkd0 : 0 ≤ (k : Int) * d := mul_nonneg (Int.natCast_nonneg k) (le_of_lt hd)
    refine ⟨by linarith [hminb.1], by linarith [hmaxb.2], by linarith [hminb.1],
      by linarith [hmaxb.2]⟩
  refine ⟨?_, ?_, hiff⟩
  · intro k hk
    obtain ⟨hs0, hs6, he0, he6⟩ := hbounds k hk
    rw [generateSlots_getElem, mkSlot_startTime, mkSlot_endTime, h1]
    exact ⟨rfl, rfl, parseTime_formatTime hs0 hs6, parseTime_formatTime he0 he6⟩
  · intro j k hj hk hjk
    obtain ⟨hjs0, hjs6, _, _⟩ := hbounds j hj
    obtain ⟨hks0, hks6, _, _⟩ := hbounds k hk
    rw [generateSlots_getElem, generateSlots_getElem, mkSlot_startTime, mkSlot_startTime, h1,
      parseTime_formatTime hjs0 hjs6, parseTime_formatTime hks0 hks6]
    have hmul : (j : Int) * d < (k : Int) * d := by
      apply mul_lt_mul_of_pos_right _ hd
      exact_mod_cast hjk
    linarith

theorem claim2_witness :
    0 < (generateSlots [1] [⟨1, "09:00", "11:00", 60, []⟩] [] 60).length ↔
      540 + ((0 : Nat) : Int) * 60 + 60 ≤ 660 :=
  (claim2_union_tiling [1] [⟨1, "09:00", "11:00", 60, []⟩] [] 60 (by decide) (by decide)
    (fun cfg hc => by
      rw [List.mem_singleton] at hc
      subst hc
      exact ⟨⟨9, 0, by norm_num, by norm_num, by decide⟩,
        ⟨11, 0, by norm_num, by norm_num, by decide⟩⟩)
    (by decide) 540 660 (by decide) (by decide)).2.2 0

/-! ### Claim C6 -/

theorem bool_window_shuffle : ∀ w1 w2 bl bk x : Bool,
    (w1 && w2 && !(bl || x) && !bk) = (w1 && w2 && !bl && !(bk || x)) := by decide

/-- **C6**: a `BlockedInterval` for a resource excludes it from exactly the
same slots as an `ExistingBooking` for that resource with the same time
span: appending the interval to the resource's effective configuration's
`blockedSlots` yields the same slot sequence as appending a booking for that
resource whose parsed instants are the interval's parsed bounds.  (`hlast`
states that the named configuration is the effective one — no later list
entry shadows it.) -/
theorem claim6_blocked_equals_booking
    (resourceIds : List Int) (l1 l2 : List ResourceSlotConfig) (c : ResourceSlotConfig)
    (bookings : List BookingItem) (d : Int) (t1 t2 : String) (i : Int)
    (hlast : ∀ x ∈ l2, x.resourceId ≠ c.resourceId) :
    generateSlots resourceIds
        (l1 ++ { c with blockedSlots := c.blockedSlots ++ [⟨t1, t2⟩] } :: l2) bookings d =
      generateSlots resourceIds (l1 ++ c :: l2)
        (bookings ++ [⟨i, c.resourceId, some (parseTime t1), some (parseTime t2)⟩]) d := by
  set c' : ResourceSlotConfig := { c with blockedSlots := c.blockedSlots ++ [⟨t1, t2⟩] }
    with hc'
  have hmapS : (l1 ++ c' :: l2).map (·.workStart) = (l1 ++ c :: l2).map (·.workStart) := by
    simp [hc']
  have hmapE : (l1 ++ c' :: l2).map (·.workEnd) = (l1 ++ c :: l2).map (·.workEnd) := by
    simp [hc']
  have hgsS : gsStart (l1 ++ c' :: l2) = gsStart (l1 ++ c :: l2) := by
    rw [gsStart, gsStart, hmapS]
  have hgsE : gsEnd (l1 ++ c' :: l2) = gsEnd (l1 ++ c :: l2) := by
    rw [gsEnd, gsEnd, hmapE]
  have hbr : bookingRangesOf
        (bookings ++ [⟨i, c.resourceId, some (parseTime t1), some (parseTime t2)⟩]) =
      bookingRangesOf bookings ++ [⟨c.resourceId, parseTime t1, parseTime t2⟩] := by
    simp [bookingRangesOf, List.filterMap_append, List.filterMap_cons]
  rw [generateSlots, generateSlots, hgsS, hgsE, hbr]
  apply List.map_congr_left
  intro k _
  simp only [mkSlot]
  have hpred : ∀ rid ∈ resourceIds,
      resourceFree (l1 ++ c' :: l2) (bookingRangesOf bookings)
          (parseTime (formatTime (gsStart (l1 ++ c :: l2) + (k : Int) * d)))
          (parseTime (formatTime (gsStart (l1 ++ c :: l2) + (k : Int) * d + d))) rid =
      resourceFree (l1 ++ c :: l2)
          (bookingRangesOf bookings ++ [⟨c.resourceId, parseTime t1, parseTime t2⟩])
          (parseTime (formatTime (gsStart (l1 ++ c :: l2) + (k : Int) * d)))
          (parseTime (formatTime (gsStart (l1 ++ c :: l2) + (k : Int) * d + d))) rid := by
    intro rid _
    by_cases hr : rid = c.resourceId
    · have hl2 : configByResource l2 rid = none := by
        rw [hr]
        exact configByResource_no_match hlast
      have hlookA : configByResource (l1 ++ c' :: l2) rid = some c' := by
        rw [configByResource_append, configByResource_cons, hl2]
        simp [hc', hr]
      have hlookB : configByResource (l1 ++ c :: l2) rid = some c := by
        rw [configByResource_append, configByResource_cons, hl2]
        simp [hr]
      simp only [resourceFree, effWorkStart, effWorkEnd, effBlocked, hlookA, hlookB,
        Option.map_some', Option.getD_some, hc']
      simp only [List.any_append, List.any_cons, List.any_nil, Bool.or_false, hr,
        beq_self_eq_true, Bool.true_and]
      exact bool_window_shuffle _ _ _ _ _
    · have hbeq : (c.resourceId == rid) = false :=
        beq_eq_false_iff_ne.mpr fun hcr => hr hcr.symm
      have hbeq' : (c'.resourceId == rid) = false := by
        simpa [hc'] using hbeq
      have hlook : configByResource (l1 ++ c' :: l2) rid =
          configByResource (l1 ++ c :: l2) rid := by
        rw [configByResource_append, configByResource_append, configByResource_cons,
          configByResource_cons]
        cases h2 : configByResource l2 rid <;> simp [hbeq, hbeq', h2]
      simp only [resourceFree, effWorkStart, effWorkEnd, effBlocked, hlook,
        List.any_append, List.any_cons, List.any_nil, hbeq, Bool.false_and, Bool.or_false]
  rw [List.filter_congr hpred]

theorem claim6_witness :
    generateSlots [1]
        ([] ++ { (⟨1, "09:00", "11:00", 60, []⟩ : ResourceSlotConfig) with
            blockedSlots := (⟨1, "09:00", "11:00", 60, []⟩ : ResourceSlotConfig).blockedSlots ++
              [⟨"09:00", "10:00"⟩] } :: []) [] 60 =
      generateSlots [1] ([] ++ (⟨1, "09:00", "11:00", 60, []⟩ : ResourceSlotConfig) :: [])
        ([] ++ [⟨5, (⟨1, "09:00", "11:00", 60, []⟩ : ResourceSlotConfig).resourceId,
          some (parseTime "09:00"), some (parseTime "10:00")⟩]) 60 :=
  claim6_blocked_equals_booking [1] [] [] ⟨1, "09:00", "11:00", 60, []⟩ [] 60 "09:00" "10:00" 5
    (by decide)

end SlotService
